import Mathlib

/-!
# InventoryTransformer

A shallow embedding of `plugin/builtin/inventorytransformer/InventoryTransformer.go`
(`Config`, `Transform`, `makeInventory`, `computeRefs`) together with the parts of the
packages `resid`, `resource`, `resmap`, `hasher`, `inventory` and `types` that the file
calls.  Those packages are not part of the source tree at hand; what the file needs from
them is either modelled from the specification (each such definition says so) or taken
as a parameter (`Collaborators`, `PluginHelpers`, the decoder handed to `Config`).

Go's in-place mutation is made explicit: `Transform` returns the working set it leaves
behind next to its error, `Config` returns the plugin it leaves behind next to its error.
-/

set_option autoImplicit false

namespace InventoryTransformer

/-! ## Data model -/

/-- Modelled from the spec: `resid.Gvk`, the group/version/kind part of a canonical
identity (package `resid` is not in the source tree). -/
structure Gvk where
  Group : String
  Version : String
  Kind : String
deriving DecidableEq, Repr

/-- Modelled from the spec: `resid.ResId`, the canonical identity
`{group, version, kind, namespace, name}` of a resource; an immutable value type whose
equality is field-wise (it is the key of the Go map `inv.Current`). -/
structure ResId where
  Gvk : Gvk
  Name : String
  Namespace : String
deriving DecidableEq, Repr

/-- The constructor `resid.NewResIdWithNamespace(k, n, ns)`. -/
def NewResIdWithNamespace (k : Gvk) (n : String) (ns : String) : ResId :=
  { Gvk := k, Name := n, Namespace := ns }

/-- Modelled from the spec: the annotation map `map[string]string` of an artifact, kept as
an association list that is read with `List.lookup`. -/
abbrev Annotations := List (String × String)

/-- Modelled from the spec: `resource.Resource` as the file observes it, "each exposing
group/version/kind, namespace, name, and zero or more referenced-by handles"; the
annotations are what a carrier artifact holds, `Body` stands for every other content. -/
structure Resource where
  GetGvk : Gvk
  GetName : String
  GetNamespace : String
  GetRefBy : List ResId
  GetAnnotations : Annotations
  Body : String
deriving DecidableEq, Repr

/-- The current identity of a resource: the id `makeInventory` and `computeRefs` build
with `resid.NewResIdWithNamespace(r.GetGvk(), r.GetName(), r.GetNamespace())`. -/
def Resource.CurId (r : Resource) : ResId :=
  NewResIdWithNamespace r.GetGvk r.GetName r.GetNamespace

/-- The errors the file returns or passes on.
* `alreadyInInventory item` is `fmt.Errorf("item '%v' already in inventory", item)`
  (the spec's `DuplicateResource`);
* `unrecognizedGarbagePolicy s` is `fmt.Errorf("unrecognized garbagePolicy '%s'", s)`
  (the spec's `InvalidPolicy`);
* `noMatch id` is the error of `m.GetByCurrentId(id)` (the spec's `UnresolvedReference`);
* `collaborator msg` is an error of any other callee (`yaml.Unmarshal`, the hasher,
  `inv.UpdateAnnotations`, `MakeConfigMap`, `m.Append`). -/
inductive Error where
  | alreadyInInventory (item : ResId)
  | unrecognizedGarbagePolicy (policy : String)
  | noMatch (id : ResId)
  | collaborator (msg : String)
deriving DecidableEq, Repr

deriving instance DecidableEq for Except

/-! ## The working set -/

/-- Modelled from the spec: `resmap.ResMap`, the working set, "the full collection of
configuration resources under consideration for one transform invocation", kept as the
list in which it enumerates its resources (package `resmap` is not in the source tree). -/
abbrev ResMap := List Resource

/-- Modelled from the spec: `m.Resources()` enumerates every resource of the working set. -/
def ResMap.Resources (m : ResMap) : List Resource := m

/-- Modelled from the spec: `m.GetByCurrentId(id)`, "look up the referenced resource in
the working set by its current identity"; the lookup fails when no resource of the
working set has that identity. -/
def ResMap.GetByCurrentId (m : ResMap) (id : ResId) : Except Error Resource :=
  match m.find? (fun r => decide (r.CurId = id)) with
  | some r => .ok r
  | none => .error (.noMatch id)

/-- Modelled from the spec: `m.AllIds()`, the identity of every resource currently in the
working set, in enumeration order. -/
def ResMap.AllIds (m : ResMap) : List ResId := m.map Resource.CurId

/-- Modelled from the spec: `m.Remove(id)` takes the resource with that identity out of
the working set (the file ignores whatever `Remove` returns). -/
def ResMap.Remove (m : ResMap) (adios : ResId) : ResMap :=
  m.filter (fun r => decide (r.CurId ≠ adios))

/-- Modelled from the spec: `m.Append(res)`, "append the newly constructed artifact to the
working set"; the spec gives this step no failure ("the point where failure is no longer
possible" lies before it), so the error it returns is always `nil`. -/
def ResMap.Append (m : ResMap) (res : Resource) : ResMap × Option Error :=
  (m ++ [res], none)

/-! ## The inventory -/

/-- Modelled from the spec: `inventory.Inventory`, of which the file uses the Go map
`Current : map[resid.ResId][]resid.ResId`, "mapping from ResourceId to ordered sequence of
ResourceId"; kept as an association list with at most one entry per key. -/
structure Inventory where
  Current : List (ResId × List ResId)
deriving DecidableEq, Repr

/-- The empty inventory of `inventory.NewInventory()`. -/
def NewInventory : Inventory := { Current := [] }

/-- The Go map read `v, ok := inv.Current[item]`. -/
def Inventory.get (inv : Inventory) (item : ResId) : Option (List ResId) :=
  inv.Current.lookup item

/-- The Go map write `inv.Current[item] = refs`. -/
def Inventory.set (inv : Inventory) (item : ResId) (refs : List ResId) : Inventory :=
  { Current := inv.Current.filter (fun e => decide (e.1 ≠ item)) ++ [(item, refs)] }

/-- The keys of the Go map `inv.Current`. -/
def Inventory.keys (inv : Inventory) : List ResId := inv.Current.map Prod.fst

/-! ## Collaborators taken as parameters -/

/-- The callees of the file whose code is outside the source tree and whose behaviour the
spec leaves open.
* `ResIdString` is `resid.ResId.String()`, the canonical string form of an identity;
* `ComputeHash` is the digest the hasher computes over the already sorted strings;
* `HashAnnotation` is the constant `inventory.HashAnnotation`;
* `UpdateAnnotations` is `inv.UpdateAnnotations(annot)`: the annotation map it leaves
  behind and the error it returns. -/
structure Collaborators where
  ResIdString : ResId → String
  ComputeHash : List String → Except Error String
  HashAnnotation : String
  UpdateAnnotations : Inventory → Annotations → Annotations × Option Error

/-- Modelled from the spec: `types.GeneratorOptions`, of which the file sets the
annotations. -/
structure GeneratorOptions where
  Annotations : Annotations
deriving DecidableEq, Repr

/-- Modelled from the spec: `types.ConfigMapArgs`, of which the file sets the identity
(name, namespace) and the options. -/
structure ConfigMapArgs where
  Name : String
  Namespace : String
  Options : GeneratorOptions
deriving DecidableEq, Repr

/-- The plugin helpers `*resmap.PluginHelpers`: what the file asks of them is
`h.ResmapFactory().RF().MakeConfigMap(kv.NewLoader(h.Loader(), h.Validator()), &args)`,
the external artifact construction, taken as a parameter. -/
structure PluginHelpers where
  MakeConfigMap : ConfigMapArgs → Except Error Resource

/-- The `plugin` struct: the helpers, the embedded `types.ObjectMeta` (of which the file
reads `Name` and `Namespace`) and the `Policy` string. -/
structure plugin where
  h : PluginHelpers
  Name : String
  Namespace : String
  Policy : String

/-- Modelled from the spec: `types.GarbageIgnore.String()`, the canonical string of the
`Ignore` policy, which the spec gives as `"ignore"` (package `types` is not in the source
tree). -/
def GarbageIgnoreString : String := "ignore"

/-- Modelled from the spec: `types.GarbageCollect.String()`, the canonical string of the
`Collect` policy, which the spec gives as `"collect"`. -/
def GarbageCollectString : String := "collect"

/-! ## The hasher -/

/-- The code points of a string. Go compares strings byte-wise; on UTF-8 text the
byte-wise lexicographic order is the lexicographic order of the code points. -/
def codePoints (s : String) : List Nat := s.data.map Char.toNat

/-- The order `sort.Strings` sorts by. -/
def strLe (a b : String) : Prop := codePoints a ≤ codePoints b

instance strLe.decidable : DecidableRel strLe :=
  fun a b => inferInstanceAs (Decidable (codePoints a ≤ codePoints b))

/-- Modelled from the spec: `hasher.SortArrayAndComputeHash(keys)`, "sort the input
strings lexicographically (byte-wise), concatenate or otherwise canonically combine them,
and compute a deterministic digest over the result" (package `hasher` is not in the source
tree; the digest itself is the parameter `ComputeHash`). -/
def SortArrayAndComputeHash (c : Collaborators) (s : List String) : Except Error String :=
  c.ComputeHash (s.insertionSort strLe)

/-! ## The file's functions -/

/-- The loop of `computeRefs`: `refs` is the slice appended to so far. -/
def computeRefsLoop (m : ResMap) : List ResId → List ResId → Except Error (List ResId)
  | [], refs => .ok refs
  | refid :: rest, refs =>
    match m.GetByCurrentId refid with
    | .error err => .error err
    | .ok ref =>
      computeRefsLoop m rest
        (refs ++ [NewResIdWithNamespace ref.GetGvk ref.GetName ref.GetNamespace])

/-- The function `computeRefs(r, m)`. -/
def computeRefs (r : Resource) (m : ResMap) : Except Error (List ResId) :=
  computeRefsLoop m r.GetRefBy []

/-- The loop of `makeInventory` over `m.Resources()`: `inv` and `keys` are the inventory
and the key slice built so far. -/
def makeInventoryLoop (c : Collaborators) (m : ResMap) :
    List Resource → Inventory → List String → Except Error (Inventory × List String)
  | [], inv, keys => .ok (inv, keys)
  | r :: rest, inv, keys =>
    let ns := r.GetNamespace
    let item := NewResIdWithNamespace r.GetGvk r.GetName ns
    if (inv.get item).isSome then
      .error (.alreadyInInventory item)
    else
      match computeRefs r m with
      | .error err => .error err
      | .ok refs => makeInventoryLoop c m rest (inv.set item refs) (keys ++ [c.ResIdString item])

/-- The function `makeInventory(m)`: the inventory and the hash, or the error (Go returns
the triple `(inv, hash, err)`, of which the caller reads `inv` and `hash` only when `err`
is `nil`). -/
def makeInventory (c : Collaborators) (m : ResMap) : Except Error (Inventory × String) :=
  match makeInventoryLoop c m m.Resources NewInventory [] with
  | .error err => .error err
  | .ok (inv, keys) =>
    match SortArrayAndComputeHash c keys with
    | .error err => .error err
    | .ok h => .ok (inv, h)

/-- The bytes `[]byte` of a configuration. -/
abbrev Bytes := List UInt8

/-- The method `(p *plugin) Config(h, c)`: the plugin it leaves behind and the error it
returns. `Unmarshal` is `yaml.Unmarshal(c, p)`, a parameter: the plugin it leaves behind
and its error. -/
def plugin.Config (Unmarshal : Bytes → plugin → plugin × Option Error)
    (p : plugin) (h : PluginHelpers) (c : Bytes) : plugin × Option Error :=
  let p := { p with h := h }
  match Unmarshal c p with
  | (p, some err) => (p, some err)
  | (p, none) =>
    let p := if p.Policy = "" then { p with Policy := GarbageIgnoreString } else p
    if p.Policy ≠ GarbageCollectString ∧ p.Policy ≠ GarbageIgnoreString then
      (p, some (.unrecognizedGarbagePolicy p.Policy))
    else
      (p, none)

/-- The arguments `Transform` hands to `MakeConfigMap`, given the annotation map. -/
def plugin.args (p : plugin) (annotations : Annotations) : ConfigMapArgs :=
  { Name := p.Name, Namespace := p.Namespace, Options := { Annotations := annotations } }

/-- The purge of `Transform`: `for _, byeBye := range m.AllIds() { m.Remove(byeBye) }`. -/
def purge (m : ResMap) : ResMap :=
  m.AllIds.foldl (fun m byeBye => m.Remove byeBye) m

/-- The method `(p *plugin) Transform(m)`: the working set it leaves behind and the error
it returns. -/
def plugin.Transform (c : Collaborators) (p : plugin) (m : ResMap) : ResMap × Option Error :=
  match makeInventory c m with
  | .error err => (m, some err)
  | .ok (inv, h) =>
    match c.UpdateAnnotations inv [(c.HashAnnotation, h)] with
    | (_, some err) => (m, some err)
    | (annotations, none) =>
      match p.h.MakeConfigMap (p.args annotations) with
      | .error err => (m, some err)
      | .ok cm =>
        let m := if p.Policy = GarbageCollectString then purge m else m
        m.Append cm

/-! ## The carrier, modelled from the spec -/

/-- Modelled from the spec: the constant `inventory.HashAnnotation`, the "fixed, well-known
key" under which the emitted artifact carries the digest (package `inventory` is not in
the source tree; the spec fixes the role of the key, the spelling is the one of the
kustomize annotations). -/
def inventory.HashAnnotation : String := "kustomize.config.k8s.io/InventoryHash"

/-- Modelled from the spec: the key under which the carrier holds "the set membership"
next to the fingerprint; a key of its own, since the annotation set contains "at minimum
the digest under a well-known fingerprint key". -/
def inventory.ContentAnnotation : String := "kustomize.config.k8s.io/Inventory"

/-- The Go map write `annot[key] = value`. -/
def annotate (annot : Annotations) (key value : String) : Annotations :=
  annot.filter (fun e => decide (e.1 ≠ key)) ++ [(key, value)]

/-- Modelled from the spec: `inv.UpdateAnnotations(annot)` (package `inventory` is not in
the source tree). The carrier artifact holds "the fingerprint plus the set membership":
the call writes the membership, as `Marshal` serializes the inventory, into the annotation
map under the membership key, and fails when the serialization fails. `Marshal` is a
parameter. -/
def Inventory.UpdateAnnotations (Marshal : Inventory → Except Error String)
    (inv : Inventory) (annot : Annotations) : Annotations × Option Error :=
  match Marshal inv with
  | .error err => (annot, some err)
  | .ok data => (annotate annot inventory.ContentAnnotation data, none)

/-- Modelled from the spec: the collaborators with the fingerprint key and
`UpdateAnnotations` as the spec describes them; the canonical string of an identity, the
digest and the serialization of the inventory stay parameters. -/
def Collaborators.ofSpec (ResIdString : ResId → String)
    (ComputeHash : List String → Except Error String)
    (Marshal : Inventory → Except Error String) : Collaborators where
  ResIdString := ResIdString
  ComputeHash := ComputeHash
  HashAnnotation := inventory.HashAnnotation
  UpdateAnnotations := Inventory.UpdateAnnotations Marshal

/-- Modelled from the spec: `MakeConfigMap(loader, &args)`, the artifact construction
`ArtifactFactory.build(identity, annotations) -> Artifact | error` (the factory is not in
the source tree): it either fails or "materializes a carrier object (identity +
annotations)", a ConfigMap with the name, the namespace and the annotations of `args`.
`Rejects` is a parameter: the error, if any, of the factory, its loader and validator. -/
def MakeConfigMap (Rejects : ConfigMapArgs → Option Error) (args : ConfigMapArgs) :
    Except Error Resource :=
  match Rejects args with
  | some err => .error err
  | none =>
    .ok { GetGvk := { Group := "", Version := "v1", Kind := "ConfigMap" },
          GetName := args.Name, GetNamespace := args.Namespace, GetRefBy := [],
          GetAnnotations := args.Options.Annotations, Body := "" }

/-- Modelled from the spec: the plugin helpers whose factory is `MakeConfigMap` as the spec
describes it. -/
def PluginHelpers.ofSpec (Rejects : ConfigMapArgs → Option Error) : PluginHelpers where
  MakeConfigMap := InventoryTransformer.MakeConfigMap Rejects

/-! ## Properties of collaborators -/

/-- A successful `UpdateAnnotations` leaves the entry under the fingerprint key as it
found it. -/
def Collaborators.KeepsHashEntry (c : Collaborators) : Prop :=
  ∀ (inv : Inventory) (annot annot' : Annotations),
    c.UpdateAnnotations inv annot = (annot', none) →
    annot'.lookup c.HashAnnotation = annot.lookup c.HashAnnotation

/-- The artifact the factory builds holds the annotations it was given. -/
def PluginHelpers.CarriesAnnotations (h : PluginHelpers) : Prop :=
  ∀ (args : ConfigMapArgs) (cm : Resource),
    h.MakeConfigMap args = .ok cm → cm.GetAnnotations = args.Options.Annotations

/-! ## Concrete inputs -/

/-- A sample set of collaborators: identities are written `namespace_name_group_kind`,
the digest joins the sorted strings, the inventory is recorded under a second key. -/
def sampleCollaborators : Collaborators where
  ResIdString := fun id =>
    id.Namespace ++ "_" ++ id.Name ++ "_" ++ id.Gvk.Group ++ "_" ++ id.Gvk.Kind
  ComputeHash := fun keys => .ok (String.intercalate "," keys)
  HashAnnotation := "inventory-hash"
  UpdateAnnotations := fun inv annot =>
    (annot ++ [("inventory", String.intercalate ";" (inv.keys.map (fun id => id.Name)))], none)

/-- The group/version/kind of the sample resources. -/
def sampleGvk : Gvk := { Group := "apps", Version := "v1", Kind := "Deployment" }

/-- The identity of sample resource A. -/
def idA : ResId := NewResIdWithNamespace sampleGvk "a" "ns"

/-- The identity of sample resource B. -/
def idB : ResId := NewResIdWithNamespace sampleGvk "b" "ns"

/-- An identity no sample resource has. -/
def idX : ResId := NewResIdWithNamespace sampleGvk "x" "ns"

/-- Sample resource A, referenced by B. -/
def resA : Resource :=
  { GetGvk := sampleGvk, GetName := "a", GetNamespace := "ns", GetRefBy := [idB],
    GetAnnotations := [], Body := "spec-a" }

/-- Sample resource B, referenced by nothing. -/
def resB : Resource :=
  { GetGvk := sampleGvk, GetName := "b", GetNamespace := "ns", GetRefBy := [],
    GetAnnotations := [], Body := "spec-b" }

/-- A second resource with the identity of A, referenced by nothing. -/
def resA2 : Resource :=
  { GetGvk := sampleGvk, GetName := "a", GetNamespace := "ns", GetRefBy := [],
    GetAnnotations := [], Body := "spec-a2" }

/-- A resource with the identity of A whose referenced-by handle `idX` is dangling. -/
def resADangling : Resource :=
  { GetGvk := sampleGvk, GetName := "a", GetNamespace := "ns", GetRefBy := [idX],
    GetAnnotations := [], Body := "spec-a3" }

/-- A resource with the identity of B whose referenced-by handle `idX` is dangling. -/
def resBDangling : Resource :=
  { GetGvk := sampleGvk, GetName := "b", GetNamespace := "ns", GetRefBy := [idX],
    GetAnnotations := [], Body := "spec-b2" }

/-- Sample plugin helpers: the factory rejects an empty name and otherwise builds a
ConfigMap with the identity and the annotations it is given. -/
def sampleHelpers : PluginHelpers where
  MakeConfigMap := fun args =>
    if args.Name = "" then .error (.collaborator "name is required")
    else .ok { GetGvk := { Group := "", Version := "v1", Kind := "ConfigMap" },
               GetName := args.Name, GetNamespace := args.Namespace, GetRefBy := [],
               GetAnnotations := args.Options.Annotations, Body := "" }

/-- A sample plugin with the given policy. -/
def samplePlugin (policy : String) : plugin :=
  { h := sampleHelpers, Name := "inventory", Namespace := "ns", Policy := policy }

/-- A sample plugin whose name the factory rejects. -/
def namelessPlugin (policy : String) : plugin :=
  { h := sampleHelpers, Name := "", Namespace := "ns", Policy := policy }

/-- A sample decoder: the bytes are the text of the policy, and a configuration that
starts with a zero byte is malformed. -/
def sampleUnmarshal (c : Bytes) (p : plugin) : plugin × Option Error :=
  match c with
  | 0 :: _ => (p, some (.collaborator "yaml: malformed"))
  | _ => ({ p with Policy := String.mk (c.map (fun b => Char.ofNat b.toNat)) }, none)

/-- The bytes of the text `ignore`. -/
def bytesIgnore : Bytes := [105, 103, 110, 111, 114, 101]

/-- The bytes of the text `collect`. -/
def bytesCollect : Bytes := [99, 111, 108, 108, 101, 99, 116]

/-- The bytes of the text `prune`. -/
def bytesPrune : Bytes := [112, 114, 117, 110, 101]

/-- The annotations of the artifact for the working set `[resA, resB]`. -/
def sampleAnnotations : Annotations :=
  [("inventory-hash", "ns_a_apps_Deployment,ns_b_apps_Deployment"), ("inventory", "a;b")]

/-- The artifact the sample factory builds for the working set `[resA, resB]`. -/
def sampleArtifact : Resource :=
  { GetGvk := { Group := "", Version := "v1", Kind := "ConfigMap" },
    GetName := "inventory", GetNamespace := "ns", GetRefBy := [],
    GetAnnotations := sampleAnnotations, Body := "" }

/-- A resource with the identity of B that is referenced by A: with `resA` it closes a
reference cycle. -/
def resBCyclic : Resource :=
  { GetGvk := sampleGvk, GetName := "b", GetNamespace := "ns", GetRefBy := [idA],
    GetAnnotations := [], Body := "spec-b3" }

/-- The inventory of the cyclic working set `[resA, resBCyclic]`. -/
def cyclicInventory : Inventory := { Current := [(idA, [idB]), (idB, [idA])] }

/-- A sample serialization of the inventory: the names of its keys. -/
def sampleMarshal (inv : Inventory) : Except Error String :=
  .ok (String.intercalate ";" (inv.keys.map (fun id => id.Name)))

/-- The collaborators of the spec with the sample canonical string, digest and
serialization. -/
def specCollaborators : Collaborators :=
  Collaborators.ofSpec sampleCollaborators.ResIdString sampleCollaborators.ComputeHash
    sampleMarshal

/-- A sample rejection: the factory refuses an empty name. -/
def sampleRejects (args : ConfigMapArgs) : Option Error :=
  if args.Name = "" then some (.collaborator "name is required") else none

/-- A plugin with the helpers of the spec and the given policy. -/
def specPlugin (policy : String) : plugin :=
  { h := PluginHelpers.ofSpec sampleRejects, Name := "inventory", Namespace := "ns",
    Policy := policy }

/-- The artifact built for the working set `[resA, resB]` with the collaborators of the
spec. -/
def specArtifact : Resource :=
  { GetGvk := { Group := "", Version := "v1", Kind := "ConfigMap" },
    GetName := "inventory", GetNamespace := "ns", GetRefBy := [],
    GetAnnotations :=
      [("kustomize.config.k8s.io/InventoryHash", "ns_a_apps_Deployment,ns_b_apps_Deployment"),
       ("kustomize.config.k8s.io/Inventory", "a;b")],
    Body := "" }

/-- The inventory of the working set `[resA, resB]`. -/
def sampleInventory : Inventory := { Current := [(idA, [idB]), (idB, [])] }

/-- The digest of the working set `[resA, resB]` under the sample collaborators. -/
def sampleHash : String := "ns_a_apps_Deployment,ns_b_apps_Deployment"

/-! ## Lemmas on the working set and the inventory -/

theorem GetByCurrentId_ok_iff (m : ResMap) (id : ResId) (r : Resource) :
    m.GetByCurrentId id = .ok r ↔ m.find? (fun r => decide (r.CurId = id)) = some r := by
  unfold ResMap.GetByCurrentId
  cases h : m.find? (fun r => decide (r.CurId = id)) <;> simp

theorem GetByCurrentId_ok_mem {m : ResMap} {id : ResId} {r : Resource}
    (h : m.GetByCurrentId id = .ok r) : r ∈ m ∧ r.CurId = id := by
  rw [GetByCurrentId_ok_iff] at h
  exact ⟨List.mem_of_find?_eq_some h, by simpa using List.find?_some h⟩

theorem GetByCurrentId_error {m : ResMap} {id : ResId} {e : Error}
    (h : m.GetByCurrentId id = .error e) : e = .noMatch id ∧ ∀ r ∈ m, r.CurId ≠ id := by
  unfold ResMap.GetByCurrentId at h
  cases hf : m.find? (fun r => decide (r.CurId = id)) with
  | some r => simp [hf] at h
  | none =>
    simp only [hf, Except.error.injEq] at h
    refine ⟨h.symm, ?_⟩
    intro r hr
    have := List.find?_eq_none.mp hf r hr
    simpa using this

theorem GetByCurrentId_of_mem {m : ResMap} {id : ResId} {r : Resource}
    (hr : r ∈ m) (hid : r.CurId = id) : ∃ r', m.GetByCurrentId id = .ok r' := by
  cases h : m.GetByCurrentId id with
  | ok r' => exact ⟨r', rfl⟩
  | error e => exact absurd hid ((GetByCurrentId_error h).2 r hr)

/-- A handle resolves in a working set exactly when some resource of the set has it as
its current identity. -/
theorem GetByCurrentId_isOk_iff (m : ResMap) (id : ResId) :
    (∃ r, m.GetByCurrentId id = .ok r) ↔ ∃ r ∈ m, r.CurId = id := by
  constructor
  · rintro ⟨r, h⟩
    exact ⟨r, GetByCurrentId_ok_mem h⟩
  · rintro ⟨r, hr, hid⟩
    exact GetByCurrentId_of_mem hr hid

theorem Inventory.get_set (inv : Inventory) (k k' : ResId) (v : List ResId) :
    (inv.set k v).get k' = if k' = k then some v else inv.get k' := by
  obtain ⟨l⟩ := inv
  simp only [Inventory.set, Inventory.get]
  induction l with
  | nil =>
    by_cases h : k' = k
    · subst h; simp [List.lookup]
    · have hb : (k' == k) = false := by simpa using h
      simp [List.lookup, h, hb]
  | cons e l ih =>
    obtain ⟨a, b⟩ := e
    by_cases ha : a = k
    · subst ha
      simp only [ne_eq, not_true_eq_false, decide_False, Bool.false_eq_true,
        not_false_eq_true, List.filter_cons_of_neg]
      rw [ih]
      by_cases h : k' = a
      · simp [h]
      · have hb : (k' == a) = false := by simpa using h
        simp [h, hb, List.lookup]
    · simp only [ne_eq, ha, not_false_eq_true, decide_True, List.filter_cons_of_pos,
        List.cons_append, List.lookup]
      by_cases h : k' = a
      · subst h; simp [ha]
      · have : (k' == a) = false := by simpa using h
        simp only [this]
        exact ih

theorem Inventory.get_eq_none_iff (inv : Inventory) (k : ResId) :
    inv.get k = none ↔ k ∉ inv.keys := by
  obtain ⟨l⟩ := inv
  simp only [Inventory.get, Inventory.keys]
  induction l with
  | nil => simp [List.lookup]
  | cons e l ih =>
    obtain ⟨a, b⟩ := e
    by_cases h : k = a
    · subst h; simp [List.lookup]
    · have hb : (k == a) = false := by simpa using h
      simp only [List.lookup, hb, List.map_cons, List.mem_cons, h, false_or]
      exact ih

theorem Inventory.keys_set_of_fresh (inv : Inventory) (k : ResId) (v : List ResId)
    (h : inv.get k = none) : (inv.set k v).keys = inv.keys ++ [k] := by
  rw [Inventory.get_eq_none_iff] at h
  obtain ⟨l⟩ := inv
  simp only [Inventory.keys] at h
  simp only [Inventory.set, Inventory.keys, List.map_append, List.map_cons, List.map_nil]
  congr 1
  congr 1
  rw [List.filter_eq_self]
  intro e he
  have : e.1 ≠ k := by
    intro hek
    exact h (List.mem_map.mpr ⟨e, he, hek⟩)
  simpa using this

/-! ## Lemmas on `computeRefs` -/

theorem computeRefsLoop_ok_iff (m : ResMap) (hs acc out : List ResId) :
    computeRefsLoop m hs acc = .ok out ↔
      ∃ resolved : List Resource,
        List.Forall₂ (fun h ref => m.GetByCurrentId h = .ok ref) hs resolved ∧
        out = acc ++ resolved.map Resource.CurId := by
  induction hs generalizing acc with
  | nil =>
    simp only [computeRefsLoop, Except.ok.injEq, List.forall₂_nil_left_iff]
    constructor
    · intro h; exact ⟨[], rfl, by simp [h]⟩
    · rintro ⟨r, rfl, h⟩; simp [h]
  | cons h hs ih =>
    simp only [computeRefsLoop]
    cases hg : m.GetByCurrentId h with
    | error e =>
      constructor
      · intro h1; cases h1
      · rintro ⟨resolved, hf, _⟩
        cases hf with
        | cons h1 _ => rw [hg] at h1; cases h1
    | ok ref =>
      simp only
      rw [ih]
      constructor
      · rintro ⟨resolved, hf, hout⟩
        refine ⟨ref :: resolved, List.Forall₂.cons hg hf, ?_⟩
        simp [hout, Resource.CurId]
      · rintro ⟨resolved, hf, hout⟩
        cases hf with
        | cons h1 h2 =>
          rw [hg] at h1
          cases h1
          exact ⟨_, h2, by simp [hout, Resource.CurId]⟩

theorem computeRefsLoop_error {m : ResMap} {hs acc : List ResId} {e : Error}
    (h : computeRefsLoop m hs acc = .error e) :
    ∃ refid ∈ hs, m.GetByCurrentId refid = .error e := by
  induction hs generalizing acc with
  | nil => simp [computeRefsLoop] at h
  | cons h0 hs ih =>
    simp only [computeRefsLoop] at h
    cases hg : m.GetByCurrentId h0 with
    | error e0 =>
      rw [hg] at h
      simp only [Except.error.injEq] at h
      subst h
      exact ⟨h0, List.mem_cons_self _ _, hg⟩
    | ok ref =>
      rw [hg] at h
      obtain ⟨refid, hmem, hr⟩ := ih h
      exact ⟨refid, List.mem_cons_of_mem _ hmem, hr⟩

theorem forall₂_left_exists {α β : Type} {R : α → β → Prop} {l₁ : List α} {l₂ : List β}
    (hf : List.Forall₂ R l₁ l₂) : ∀ a ∈ l₁, ∃ b, R a b := by
  induction hf with
  | nil => intro a ha; cases ha
  | cons h1 _ ih =>
    intro a ha
    rcases List.mem_cons.mp ha with rfl | hm
    · exact ⟨_, h1⟩
    · exact ih a hm

/-- On success `computeRefs` has resolved every handle of the resource. -/
theorem computeRefs_ok_resolves {m : ResMap} {r : Resource} {refs : List ResId}
    (h : computeRefs r m = .ok refs) :
    ∀ refid ∈ r.GetRefBy, ∃ ref, m.GetByCurrentId refid = .ok ref := by
  obtain ⟨resolved, hf, _⟩ := (computeRefsLoop_ok_iff m r.GetRefBy [] refs).mp h
  exact forall₂_left_exists hf

/-- When every handle of the resource resolves, `computeRefs` succeeds. -/
theorem computeRefs_ok_of_resolves {m : ResMap} {r : Resource}
    (h : ∀ refid ∈ r.GetRefBy, ∃ ref, m.GetByCurrentId refid = .ok ref) :
    ∃ refs, computeRefs r m = .ok refs := by
  cases hc : computeRefs r m with
  | ok refs => exact ⟨refs, rfl⟩
  | error e =>
    obtain ⟨refid, hmem, he⟩ := computeRefsLoop_error hc
    obtain ⟨ref, hok⟩ := h refid hmem
    rw [hok] at he
    cases he

/-! ## Lemmas on the loop of `makeInventory` -/

theorem makeInventoryLoop_cons_fresh (c : Collaborators) (m : ResMap) (r : Resource)
    (rest : List Resource) (inv : Inventory) (keys : List String)
    (hfresh : inv.get r.CurId = none) :
    makeInventoryLoop c m (r :: rest) inv keys =
      match computeRefs r m with
      | .error err => .error err
      | .ok refs =>
        makeInventoryLoop c m rest (inv.set r.CurId refs) (keys ++ [c.ResIdString r.CurId]) := by
  have h : inv.get (NewResIdWithNamespace r.GetGvk r.GetName r.GetNamespace) = none := hfresh
  simp only [makeInventoryLoop, h, Option.isSome_none, Bool.false_eq_true, if_false]
  rfl

theorem makeInventoryLoop_cons_present (c : Collaborators) (m : ResMap) (r : Resource)
    (rest : List Resource) (inv : Inventory) (keys : List String)
    (hpresent : inv.get r.CurId ≠ none) :
    makeInventoryLoop c m (r :: rest) inv keys = .error (.alreadyInInventory r.CurId) := by
  have h : (inv.get (NewResIdWithNamespace r.GetGvk r.GetName r.GetNamespace)).isSome = true :=
    Option.isSome_iff_ne_none.mpr hpresent
  simp only [makeInventoryLoop, h, if_true]
  rfl

/-- What a successful run of the loop has established. -/
theorem makeInventoryLoop_ok {c : Collaborators} {m : ResMap} {rs : List Resource}
    {inv inv' : Inventory} {keys keys' : List String}
    (h : makeInventoryLoop c m rs inv keys = .ok (inv', keys')) :
    (rs.map Resource.CurId).Nodup ∧
    (∀ r ∈ rs, inv.get r.CurId = none) ∧
    keys' = keys ++ rs.map (fun r => c.ResIdString r.CurId) ∧
    inv'.keys = inv.keys ++ rs.map Resource.CurId ∧
    (∀ r ∈ rs, ∃ refs, computeRefs r m = .ok refs ∧ inv'.get r.CurId = some refs) ∧
    (∀ k, k ∉ rs.map Resource.CurId → inv'.get k = inv.get k) := by
  induction rs generalizing inv keys with
  | nil =>
    simp only [makeInventoryLoop, Except.ok.injEq, Prod.mk.injEq] at h
    obtain ⟨rfl, rfl⟩ := h
    simp
  | cons r rs ih =>
    by_cases hp : inv.get r.CurId = none
    · rw [makeInventoryLoop_cons_fresh c m r rs inv keys hp] at h
      cases hc : computeRefs r m with
      | error e => rw [hc] at h; cases h
      | ok refs =>
        rw [hc] at h
        obtain ⟨hnd, hfresh, hkeys, hinvkeys, hval, hframe⟩ := ih h
        have hne : ∀ r' ∈ rs, r'.CurId ≠ r.CurId ∧ inv.get r'.CurId = none := by
          intro r' hr'
          have := hfresh r' hr'
          rw [Inventory.get_set] at this
          by_cases he : r'.CurId = r.CurId
          · simp [he] at this
          · simp only [he, if_false] at this
            exact ⟨he, this⟩
        have hnotin : r.CurId ∉ rs.map Resource.CurId := by
          intro hmem
          obtain ⟨r', hr', he⟩ := List.mem_map.mp hmem
          exact (hne r' hr').1 he
        refine ⟨?_, ?_, ?_, ?_, ?_, ?_⟩
        · simpa using ⟨fun r' hr' he => hnotin (List.mem_map.mpr ⟨r', hr', he⟩), hnd⟩
        · intro r' hr'
          rcases List.mem_cons.mp hr' with rfl | hr'
          · exact hp
          · exact (hne r' hr').2
        · simp [hkeys]
        · rw [hinvkeys, Inventory.keys_set_of_fresh inv r.CurId refs hp]
          simp
        · intro r' hr'
          rcases List.mem_cons.mp hr' with rfl | hr'
          · refine ⟨refs, hc, ?_⟩
            rw [hframe _ hnotin, Inventory.get_set]
            simp
          · exact hval r' hr'
        · intro k hk
          simp only [List.map_cons, List.mem_cons, not_or] at hk
          rw [hframe k hk.2, Inventory.get_set]
          simp [hk.1]
    · rw [makeInventoryLoop_cons_present c m r rs inv keys hp] at h
      cases h

/-- The loop succeeds when the identities are fresh and pairwise distinct and every
resource has its handles resolved. -/
theorem makeInventoryLoop_ok_of {c : Collaborators} {m : ResMap} {rs : List Resource}
    {inv : Inventory} {keys : List String}
    (hnd : (rs.map Resource.CurId).Nodup)
    (hfresh : ∀ r ∈ rs, inv.get r.CurId = none)
    (hres : ∀ r ∈ rs, ∃ refs, computeRefs r m = .ok refs) :
    ∃ inv', makeInventoryLoop c m rs inv keys =
      .ok (inv', keys ++ rs.map (fun r => c.ResIdString r.CurId)) := by
  induction rs generalizing inv keys with
  | nil => exact ⟨inv, by simp [makeInventoryLoop]⟩
  | cons r rs ih =>
    have hp : inv.get r.CurId = none := hfresh r (List.mem_cons_self _ _)
    obtain ⟨refs, hc⟩ := hres r (List.mem_cons_self _ _)
    rw [makeInventoryLoop_cons_fresh c m r rs inv keys hp, hc]
    simp only [List.map_cons, List.nodup_cons] at hnd
    have hfresh' : ∀ r' ∈ rs, (inv.set r.CurId refs).get r'.CurId = none := by
      intro r' hr'
      rw [Inventory.get_set]
      have hne : r'.CurId ≠ r.CurId := by
        intro he
        exact hnd.1 (List.mem_map.mpr ⟨r', hr', he⟩)
      simp only [hne, if_false]
      exact hfresh r' (List.mem_cons_of_mem _ hr')
    obtain ⟨inv', h'⟩ := @ih (inv.set r.CurId refs) (keys ++ [c.ResIdString r.CurId]) hnd.2 hfresh'
      (fun r' hr' => hres r' (List.mem_cons_of_mem _ hr'))
    exact ⟨inv', by simpa using h'⟩

/-- When every resource has its handles resolved and some identity is repeated (or already
in the inventory), the loop stops with the duplicate error for such an identity. -/
theorem makeInventoryLoop_duplicate {c : Collaborators} {m : ResMap} {rs : List Resource}
    {inv : Inventory} {keys : List String}
    (hres : ∀ r ∈ rs, ∃ refs, computeRefs r m = .ok refs)
    (hdup : ¬ ((rs.map Resource.CurId).Nodup ∧ ∀ r ∈ rs, inv.get r.CurId = none)) :
    ∃ item, makeInventoryLoop c m rs inv keys = .error (.alreadyInInventory item) ∧
      item ∈ rs.map Resource.CurId ∧
      (item ∈ inv.keys ∨ 2 ≤ (rs.map Resource.CurId).count item) := by
  induction rs generalizing inv keys with
  | nil => exact absurd ⟨List.nodup_nil, by simp⟩ hdup
  | cons r rs ih =>
    by_cases hp : inv.get r.CurId = none
    · obtain ⟨refs, hc⟩ := hres r (List.mem_cons_self _ _)
      rw [makeInventoryLoop_cons_fresh c m r rs inv keys hp, hc]
      have hdup' : ¬ ((rs.map Resource.CurId).Nodup ∧
          ∀ r' ∈ rs, (inv.set r.CurId refs).get r'.CurId = none) := by
        rintro ⟨hnd, hfresh⟩
        apply hdup
        have hne : ∀ r' ∈ rs, r'.CurId ≠ r.CurId ∧ inv.get r'.CurId = none := by
          intro r' hr'
          have := hfresh r' hr'
          rw [Inventory.get_set] at this
          by_cases he : r'.CurId = r.CurId
          · simp [he] at this
          · simp only [he, if_false] at this
            exact ⟨he, this⟩
        refine ⟨?_, ?_⟩
        · simpa using ⟨fun r' hr' he => (hne r' hr').1 he, hnd⟩
        · intro r' hr'
          rcases List.mem_cons.mp hr' with rfl | hr'
          · exact hp
          · exact (hne r' hr').2
      obtain ⟨item, herr, hmem, hcount⟩ :=
        @ih (inv.set r.CurId refs) (keys ++ [c.ResIdString r.CurId])
          (fun r' hr' => hres r' (List.mem_cons_of_mem _ hr')) hdup'
      refine ⟨item, herr, ?_, ?_⟩
      · simp only [List.map_cons, List.mem_cons]
        exact Or.inr hmem
      · rw [Inventory.keys_set_of_fresh inv r.CurId refs hp] at hcount
        rcases hcount with hk | hk
        · rcases List.mem_append.mp hk with hk | hk
          · exact Or.inl hk
          · right
            have hitem : item = r.CurId := by simpa using hk
            subst hitem
            have h1 : 1 ≤ (rs.map Resource.CurId).count r.CurId :=
              List.count_pos_iff.mpr hmem
            simp only [List.map_cons, List.count_cons_self]
            omega
        · right
          simp only [List.map_cons, List.count_cons]
          omega
    · rw [makeInventoryLoop_cons_present c m r rs inv keys hp]
      refine ⟨r.CurId, rfl, by simp, Or.inl ?_⟩
      by_contra hk
      exact hp ((Inventory.get_eq_none_iff inv r.CurId).mpr hk)

/-- When the identities are fresh and pairwise distinct and some resource has a handle
that does not resolve, the loop stops with the error of `computeRefs` on such a
resource. -/
theorem makeInventoryLoop_unresolved {c : Collaborators} {m : ResMap} {rs : List Resource}
    {inv : Inventory} {keys : List String}
    (hnd : (rs.map Resource.CurId).Nodup)
    (hfresh : ∀ r ∈ rs, inv.get r.CurId = none)
    (hbad : ∃ r ∈ rs, ∀ refs, computeRefs r m ≠ .ok refs) :
    ∃ r ∈ rs, ∃ e, computeRefs r m = .error e ∧
      makeInventoryLoop c m rs inv keys = .error e := by
  induction rs generalizing inv keys with
  | nil =>
    obtain ⟨r, hr, _⟩ := hbad
    cases hr
  | cons r rs ih =>
    have hp : inv.get r.CurId = none := hfresh r (List.mem_cons_self _ _)
    rw [makeInventoryLoop_cons_fresh c m r rs inv keys hp]
    cases hc : computeRefs r m with
    | error e => exact ⟨r, List.mem_cons_self _ _, e, hc, rfl⟩
    | ok refs =>
      simp only [List.map_cons, List.nodup_cons] at hnd
      have hfresh' : ∀ r' ∈ rs, (inv.set r.CurId refs).get r'.CurId = none := by
        intro r' hr'
        rw [Inventory.get_set]
        have hne : r'.CurId ≠ r.CurId := by
          intro he
          exact hnd.1 (List.mem_map.mpr ⟨r', hr', he⟩)
        simp only [hne, if_false]
        exact hfresh r' (List.mem_cons_of_mem _ hr')
      have hbad' : ∃ r' ∈ rs, ∀ refs, computeRefs r' m ≠ .ok refs := by
        obtain ⟨r', hr', hb⟩ := hbad
        rcases List.mem_cons.mp hr' with rfl | hr'
        · exact absurd hc (hb refs)
        · exact ⟨r', hr', hb⟩
      obtain ⟨r', hr', e, he, hl⟩ :=
        @ih (inv.set r.CurId refs) (keys ++ [c.ResIdString r.CurId])
          hnd.2 hfresh' hbad'
      exact ⟨r', List.mem_cons_of_mem _ hr', e, he, hl⟩

/-! ## Lemmas on `makeInventory` -/

theorem NewInventory_get (k : ResId) : NewInventory.get k = none := rfl

/-- What a successful `makeInventory` has established. -/
theorem makeInventory_ok {c : Collaborators} {m : ResMap} {inv : Inventory} {h : String}
    (hm : makeInventory c m = .ok (inv, h)) :
    (m.map Resource.CurId).Nodup ∧
    inv.keys = m.map Resource.CurId ∧
    (∀ r ∈ m, ∃ refs, computeRefs r m = .ok refs ∧ inv.get r.CurId = some refs) ∧
    SortArrayAndComputeHash c (m.map (fun r => c.ResIdString r.CurId)) = .ok h := by
  unfold makeInventory at hm
  cases hl : makeInventoryLoop c m m.Resources NewInventory [] with
  | error e => rw [hl] at hm; cases hm
  | ok res =>
    obtain ⟨inv', keys'⟩ := res
    rw [hl] at hm
    simp only at hm
    obtain ⟨hnd, _, hkeys, hinvkeys, hval, _⟩ := makeInventoryLoop_ok hl
    simp only [List.nil_append, ResMap.Resources] at hkeys hinvkeys hnd hval
    cases hs : SortArrayAndComputeHash c keys' with
    | error e => rw [hs] at hm; cases hm
    | ok h' =>
      rw [hs] at hm
      simp only [Except.ok.injEq, Prod.mk.injEq] at hm
      obtain ⟨rfl, rfl⟩ := hm
      refine ⟨hnd, ?_, hval, ?_⟩
      · simpa [Inventory.keys, NewInventory] using hinvkeys
      · rw [← hkeys]; exact hs

/-- The function `makeInventory` succeeds on a working set with pairwise distinct
identities whose handles all resolve, as soon as the hasher succeeds. -/
theorem makeInventory_ok_of {c : Collaborators} {m : ResMap} {h : String}
    (hnd : (m.map Resource.CurId).Nodup)
    (hres : ∀ r ∈ m, ∀ refid ∈ r.GetRefBy, ∃ ref, m.GetByCurrentId refid = .ok ref)
    (hh : SortArrayAndComputeHash c (m.map (fun r => c.ResIdString r.CurId)) = .ok h) :
    ∃ inv, makeInventory c m = .ok (inv, h) := by
  obtain ⟨inv, hl⟩ := @makeInventoryLoop_ok_of c m m.Resources NewInventory [] hnd (fun r _ => NewInventory_get r.CurId)
    (fun r hr => computeRefs_ok_of_resolves (hres r hr))
  refine ⟨inv, ?_⟩
  unfold makeInventory
  rw [hl]
  simp only [List.nil_append, ResMap.Resources]
  rw [hh]

/-! ## Lemmas on the hasher -/

theorem codePoints_injective : Function.Injective codePoints := by
  intro a b h
  unfold codePoints at h
  have hinj : Function.Injective Char.toNat := by
    intro x y hxy
    apply Char.ext
    apply UInt32.ext
    exact hxy
  exact String.ext (List.map_injective_iff.mpr hinj h)

theorem strLe_total (a b : String) : strLe a b ∨ strLe b a :=
  le_total (codePoints a) (codePoints b)

theorem strLe_trans {a b d : String} (hab : strLe a b) (hbd : strLe b d) : strLe a d :=
  le_trans (a := codePoints a) hab hbd

theorem strLe_antisymm {a b : String} (hab : strLe a b) (hba : strLe b a) : a = b :=
  codePoints_injective (le_antisymm (a := codePoints a) hab hba)

/-- Sorting forgets the order in which the strings were handed over. -/
theorem insertionSort_strLe_perm {l₁ l₂ : List String} (h : l₁.Perm l₂) :
    l₁.insertionSort strLe = l₂.insertionSort strLe := by
  haveI : IsTotal String strLe := ⟨strLe_total⟩
  haveI : IsTrans String strLe := ⟨fun _ _ _ => strLe_trans⟩
  haveI : IsAntisymm String strLe := ⟨fun _ _ => strLe_antisymm⟩
  apply List.eq_of_perm_of_sorted (r := strLe)
  · exact ((List.perm_insertionSort strLe l₁).trans h).trans
      (List.perm_insertionSort strLe l₂).symm
  · exact List.sorted_insertionSort strLe l₁
  · exact List.sorted_insertionSort strLe l₂

theorem SortArrayAndComputeHash_perm (c : Collaborators) {l₁ l₂ : List String}
    (h : l₁.Perm l₂) : SortArrayAndComputeHash c l₁ = SortArrayAndComputeHash c l₂ := by
  unfold SortArrayAndComputeHash
  rw [insertionSort_strLe_perm h]

/-! ## Lemmas on `Transform` -/

theorem Transform_of_makeInventory_error {c : Collaborators} {p : plugin} {m : ResMap}
    {e : Error} (h : makeInventory c m = .error e) : p.Transform c m = (m, some e) := by
  unfold plugin.Transform
  rw [h]

/-- Failure of `makeInventory` on a working set with a repeated identity. -/
theorem makeInventory_not_ok_of_duplicate {c : Collaborators} {m : ResMap}
    (hdup : ¬ (m.map Resource.CurId).Nodup) : ∃ e, makeInventory c m = .error e := by
  cases h : makeInventory c m with
  | error e => exact ⟨e, rfl⟩
  | ok res =>
    obtain ⟨inv, hash⟩ := res
    exact absurd (makeInventory_ok h).1 hdup

/-- Failure of `makeInventory` on a working set with a handle that does not resolve. -/
theorem makeInventory_not_ok_of_unresolved {c : Collaborators} {m : ResMap}
    (hbad : ∃ r ∈ m, ∃ refid ∈ r.GetRefBy, ∀ ref, m.GetByCurrentId refid ≠ .ok ref) :
    ∃ e, makeInventory c m = .error e := by
  cases h : makeInventory c m with
  | error e => exact ⟨e, rfl⟩
  | ok res =>
    obtain ⟨inv, hash⟩ := res
    obtain ⟨r, hr, refid, hrefid, hno⟩ := hbad
    obtain ⟨refs, hc, -⟩ := (makeInventory_ok h).2.2.1 r hr
    obtain ⟨ref, href⟩ := computeRefs_ok_resolves hc refid hrefid
    exact absurd href (hno ref)

theorem makeInventory_of_loop_error {c : Collaborators} {m : ResMap} {e : Error}
    (h : makeInventoryLoop c m m.Resources NewInventory [] = .error e) :
    makeInventory c m = .error e := by
  unfold makeInventory
  rw [h]

theorem foldl_Remove (ids : List ResId) (m : ResMap) :
    ids.foldl (fun m byeBye => ResMap.Remove m byeBye) m =
      m.filter (fun r => decide (r.CurId ∉ ids)) := by
  induction ids generalizing m with
  | nil => simp
  | cons id ids ih =>
    simp only [List.foldl_cons]
    rw [ih]
    simp only [ResMap.Remove, List.filter_filter]
    congr 1
    funext r
    simp only [List.mem_cons, not_or, ne_eq, Bool.decide_and, Bool.and_comm]

/-- The purge removes every resource of the working set. -/
theorem purge_eq_nil (m : ResMap) : purge m = [] := by
  unfold purge
  rw [foldl_Remove, List.filter_eq_nil_iff]
  intro r hr
  simp only [ResMap.AllIds, decide_not, Bool.not_eq_true', decide_eq_false_iff_not,
    not_not]
  exact List.mem_map.mpr ⟨r, hr, rfl⟩

/-- The result of `Transform` once `makeInventory`, `UpdateAnnotations` and
`MakeConfigMap` have succeeded. -/
theorem Transform_of_ok {c : Collaborators} {p : plugin} {m : ResMap} {inv : Inventory}
    {h : String} {annotations : Annotations} {cm : Resource}
    (hinv : makeInventory c m = .ok (inv, h))
    (hupd : c.UpdateAnnotations inv [(c.HashAnnotation, h)] = (annotations, none))
    (hcm : p.h.MakeConfigMap (p.args annotations) = .ok cm) :
    p.Transform c m =
      ((if p.Policy = GarbageCollectString then purge m else m) ++ [cm], none) := by
  unfold plugin.Transform
  simp only [hinv, hupd, hcm, ResMap.Append]

/-- The loop over a concatenation runs the loop over the first part and, when that
succeeds, goes on from the inventory and the keys it has built. -/
theorem makeInventoryLoop_append (c : Collaborators) (m : ResMap)
    (pre rest : List Resource) (inv : Inventory) (keys : List String) :
    makeInventoryLoop c m (pre ++ rest) inv keys =
      match makeInventoryLoop c m pre inv keys with
      | .error err => .error err
      | .ok (inv', keys') => makeInventoryLoop c m rest inv' keys' := by
  induction pre generalizing inv keys with
  | nil => simp [makeInventoryLoop]
  | cons r pre ih =>
    by_cases hp : inv.get r.CurId = none
    · rw [List.cons_append, makeInventoryLoop_cons_fresh c m r (pre ++ rest) inv keys hp,
        makeInventoryLoop_cons_fresh c m r pre inv keys hp]
      cases hc : computeRefs r m with
      | error e => rfl
      | ok refs => exact ih _ _
    · rw [List.cons_append, makeInventoryLoop_cons_present c m r (pre ++ rest) inv keys hp,
        makeInventoryLoop_cons_present c m r pre inv keys hp]

/-- Whatever `makeInventory` returns on success comes from its loop. -/
theorem makeInventory_ok_loop {c : Collaborators} {m : ResMap} {inv : Inventory}
    {h : String} (hm : makeInventory c m = .ok (inv, h)) :
    ∃ keys, makeInventoryLoop c m m.Resources NewInventory [] = .ok (inv, keys) ∧
      SortArrayAndComputeHash c keys = .ok h := by
  unfold makeInventory at hm
  cases hl : makeInventoryLoop c m m.Resources NewInventory [] with
  | error e => rw [hl] at hm; cases hm
  | ok res =>
    obtain ⟨inv', keys'⟩ := res
    rw [hl] at hm
    simp only at hm
    cases hs : SortArrayAndComputeHash c keys' with
    | error e => rw [hs] at hm; cases hm
    | ok h' =>
      rw [hs] at hm
      simp only [Except.ok.injEq, Prod.mk.injEq] at hm
      obtain ⟨rfl, rfl⟩ := hm
      exact ⟨keys', rfl, hs⟩

/-- A `Transform` that returns an error has left the working set as it was. -/
theorem Transform_error_unchanged {c : Collaborators} {p : plugin} {m : ResMap} {e : Error}
    (hT : (p.Transform c m).2 = some e) : (p.Transform c m).1 = m := by
  cases hinv : makeInventory c m with
  | error e' => rw [Transform_of_makeInventory_error hinv]
  | ok res =>
    obtain ⟨inv, h⟩ := res
    cases hupd : c.UpdateAnnotations inv [(c.HashAnnotation, h)] with
    | mk annotations err =>
      cases err with
      | some e' =>
        unfold plugin.Transform
        simp only [hinv, hupd]
      | none =>
        cases hcm : p.h.MakeConfigMap (p.args annotations) with
        | error e' =>
          unfold plugin.Transform
          simp only [hinv, hupd, hcm]
        | ok cm =>
          rw [Transform_of_ok hinv hupd hcm] at hT
          cases hT

/-- For collaborators that keep the fingerprint entry and a factory that hands the
annotations on, the artifact a successful `Transform` appends carries the digest of the
working set as it was on entry. -/
theorem Transform_hash_of_contracts (c : Collaborators) (p : plugin) (m m' : ResMap)
    (hU : c.KeepsHashEntry) (hF : p.h.CarriesAnnotations)
    (hT : p.Transform c m = (m', none)) :
    ∃ inv h cm, makeInventory c m = .ok (inv, h) ∧
      m' = (if p.Policy = GarbageCollectString then [] else m) ++ [cm] ∧
      cm.GetAnnotations.lookup c.HashAnnotation = some h := by
  cases hinv : makeInventory c m with
  | error e =>
    rw [Transform_of_makeInventory_error hinv] at hT
    cases hT
  | ok res =>
    obtain ⟨inv, h⟩ := res
    cases hupd : c.UpdateAnnotations inv [(c.HashAnnotation, h)] with
    | mk annotations err =>
      cases err with
      | some e =>
        unfold plugin.Transform at hT
        simp only [hinv, hupd] at hT
        cases hT
      | none =>
        cases hcm : p.h.MakeConfigMap (p.args annotations) with
        | error e =>
          unfold plugin.Transform at hT
          simp only [hinv, hupd, hcm] at hT
          cases hT
        | ok cm =>
          rw [Transform_of_ok hinv hupd hcm] at hT
          simp only [Prod.mk.injEq, and_true] at hT
          refine ⟨inv, h, cm, rfl, ?_, ?_⟩
          · rw [← hT]
            by_cases hp : p.Policy = GarbageCollectString
            · simp [hp, purge_eq_nil]
            · simp [hp]
          · rw [hF _ cm hcm]
            have := hU inv _ annotations hupd
            simp only [plugin.args]
            rw [this]
            simp [List.lookup]

theorem lookup_annotate_other (k k' : String) (v : String) (annot : Annotations)
    (hk : k ≠ k') : List.lookup k (annotate annot k' v) = List.lookup k annot := by
  unfold annotate
  induction annot with
  | nil =>
    have hb : (k == k') = false := by simpa using hk
    simp [List.lookup, hb]
  | cons e annot ih =>
    obtain ⟨a, b⟩ := e
    by_cases ha : a = k'
    · subst ha
      have hb : (k == a) = false := by simpa using hk
      simp only [ne_eq, not_true_eq_false, decide_False, Bool.false_eq_true,
        not_false_eq_true, List.filter_cons_of_neg, List.lookup, hb]
      exact ih
    · simp only [ne_eq, ha, not_false_eq_true, decide_True, List.filter_cons_of_pos,
        List.cons_append, List.lookup]
      cases (k == a)
      · exact ih
      · rfl

theorem ofSpec_keepsHashEntry (ResIdString : ResId → String)
    (ComputeHash : List String → Except Error String)
    (Marshal : Inventory → Except Error String) :
    (Collaborators.ofSpec ResIdString ComputeHash Marshal).KeepsHashEntry := by
  intro inv annot annot' h
  simp only [Collaborators.ofSpec, Inventory.UpdateAnnotations] at h
  cases hm : Marshal inv with
  | error e => simp [hm] at h
  | ok data =>
    simp only [hm, Prod.mk.injEq, and_true] at h
    subst h
    exact lookup_annotate_other _ _ _ _
      (by decide : inventory.HashAnnotation ≠ inventory.ContentAnnotation)

theorem ofSpec_carriesAll (Rejects : ConfigMapArgs → Option Error) :
    (PluginHelpers.ofSpec Rejects).CarriesAnnotations := by
  intro args cm h
  simp only [PluginHelpers.ofSpec, InventoryTransformer.MakeConfigMap] at h
  cases hr : Rejects args with
  | some e => simp [hr] at h
  | none =>
    simp only [hr, Except.ok.injEq] at h
    subst h
    rfl

/-! ## Claims -/

theorem sample_makeInventory :
    makeInventory sampleCollaborators [resA, resB] = .ok (sampleInventory, sampleHash) := by
  decide

/-- C1: for a working set with no duplicate identities on which `makeInventory` succeeds,
`makeInventory` on any permutation of the enumeration succeeds with the identical hash
string. -/
theorem makeInventory_hash_of_perm (c : Collaborators) (m m' : ResMap) (inv : Inventory)
    (h : String) (hperm : m'.Perm m) (hnd : (m.map Resource.CurId).Nodup)
    (hok : makeInventory c m = .ok (inv, h)) :
    ∃ inv', makeInventory c m' = .ok (inv', h) := by
  obtain ⟨-, -, hval, hh⟩ := makeInventory_ok hok
  apply makeInventory_ok_of
  · exact (List.Perm.nodup_iff (hperm.map Resource.CurId)).mpr hnd
  · intro r hr refid hrefid
    obtain ⟨refs, hc, -⟩ := hval r (hperm.subset hr)
    obtain ⟨ref, href⟩ := computeRefs_ok_resolves hc refid hrefid
    obtain ⟨hmem, hid⟩ := GetByCurrentId_ok_mem href
    exact GetByCurrentId_of_mem (hperm.symm.subset hmem) hid
  · rw [SortArrayAndComputeHash_perm c (hperm.map (fun r => c.ResIdString r.CurId))]
    exact hh

theorem makeInventory_hash_of_perm_witness :
    List.Perm [resB, resA] [resA, resB] ∧
    ([resA, resB].map Resource.CurId).Nodup ∧
    makeInventory sampleCollaborators [resA, resB] = .ok (sampleInventory, sampleHash) ∧
    ∃ inv', makeInventory sampleCollaborators [resB, resA] = .ok (inv', sampleHash) :=
  ⟨by decide, by decide, by decide,
    makeInventory_hash_of_perm sampleCollaborators [resA, resB] [resB, resA] sampleInventory
      sampleHash (by decide) (by decide) (by decide)⟩

/-- C2, as stated, fails: the working set `[resADangling, resA2]` holds two resources with
the identity of A, yet `makeInventory` returns the lookup error of the first one's
dangling handle, not the duplicate error. -/
theorem makeInventory_duplicate_counterexample :
    resADangling.CurId = resA2.CurId ∧
    ¬ ([resADangling, resA2].map Resource.CurId).Nodup ∧
    makeInventory sampleCollaborators [resADangling, resA2] = .error (.noMatch idX) ∧
    ∀ item, makeInventory sampleCollaborators [resADangling, resA2] ≠
      .error (.alreadyInInventory item) := by
  refine ⟨by decide, by decide, by decide, ?_⟩
  intro item h
  have h' : makeInventory sampleCollaborators [resADangling, resA2] =
      .error (.noMatch idX) := by decide
  rw [h'] at h
  cases h

/-- C2, amended: on a working set in which two resources have the same canonical identity,
`makeInventory` fails and `Transform` returns that error leaving the working set as it
was; when moreover every referenced-by handle of the working set resolves, the error is
the duplicate error `alreadyInInventory` for an identity that occurs twice. -/
theorem makeInventory_duplicate (c : Collaborators) (p : plugin) (m : ResMap)
    (hdup : ¬ (m.map Resource.CurId).Nodup) :
    (∃ e, makeInventory c m = .error e ∧ p.Transform c m = (m, some e)) ∧
    ((∀ r ∈ m, ∀ refid ∈ r.GetRefBy, ∃ ref, m.GetByCurrentId refid = .ok ref) →
      ∃ item, 2 ≤ (m.map Resource.CurId).count item ∧
        makeInventory c m = .error (.alreadyInInventory item) ∧
        p.Transform c m = (m, some (.alreadyInInventory item))) := by
  refine ⟨?_, ?_⟩
  · obtain ⟨e, he⟩ := makeInventory_not_ok_of_duplicate (c := c) hdup
    exact ⟨e, he, Transform_of_makeInventory_error he⟩
  · intro hres
    obtain ⟨item, herr, -, hcount⟩ :=
      @makeInventoryLoop_duplicate c m m.Resources NewInventory []
        (fun r hr => computeRefs_ok_of_resolves (hres r hr))
        (fun hnd => hdup hnd.1)
    have hc : 2 ≤ (m.map Resource.CurId).count item := by
      rcases hcount with hk | hk
      · simp [Inventory.keys, NewInventory] at hk
      · exact hk
    have hmk := makeInventory_of_loop_error herr
    exact ⟨item, hc, hmk, Transform_of_makeInventory_error hmk⟩

theorem makeInventory_duplicate_witness :
    ¬ ([resA, resB, resA2].map Resource.CurId).Nodup ∧
    (∀ r ∈ [resA, resB, resA2], ∀ refid ∈ r.GetRefBy,
      ∃ ref, ResMap.GetByCurrentId [resA, resB, resA2] refid = .ok ref) ∧
    ∃ item, 2 ≤ ([resA, resB, resA2].map Resource.CurId).count item ∧
      makeInventory sampleCollaborators [resA, resB, resA2] =
        .error (.alreadyInInventory item) ∧
      (samplePlugin "collect").Transform sampleCollaborators [resA, resB, resA2] =
        ([resA, resB, resA2], some (.alreadyInInventory item)) :=
  have hres : ∀ r ∈ [resA, resB, resA2], ∀ refid ∈ r.GetRefBy,
      ∃ ref, ResMap.GetByCurrentId [resA, resB, resA2] refid = .ok ref :=
    fun r hr refid hrefid =>
      (GetByCurrentId_isOk_iff [resA, resB, resA2] refid).mpr
        ((by decide : ∀ r ∈ [resA, resB, resA2], ∀ refid ∈ r.GetRefBy,
            ∃ r' ∈ [resA, resB, resA2], r'.CurId = refid) r hr refid hrefid)
  ⟨by decide, hres,
    (makeInventory_duplicate sampleCollaborators (samplePlugin "collect")
      [resA, resB, resA2] (by decide)).2 hres⟩

/-- C3, as stated, fails: in the working set `[resA2, resA, resBDangling]` the last
resource carries the handle `idX`, which `GetByCurrentId` cannot resolve, yet
`makeInventory` returns the duplicate error of the second resource, not the lookup
error. -/
theorem makeInventory_unresolved_counterexample :
    idX ∈ resBDangling.GetRefBy ∧
    ResMap.GetByCurrentId [resA2, resA, resBDangling] idX = .error (.noMatch idX) ∧
    makeInventory sampleCollaborators [resA2, resA, resBDangling] =
      .error (.alreadyInInventory idA) ∧
    ∀ refid, makeInventory sampleCollaborators [resA2, resA, resBDangling] ≠
      .error (.noMatch refid) := by
  refine ⟨by decide, by decide, by decide, ?_⟩
  intro refid h
  have h' : makeInventory sampleCollaborators [resA2, resA, resBDangling] =
      .error (.alreadyInInventory idA) := by decide
  rw [h'] at h
  cases h

/-- C3, amended: on a working set in which some resource carries a referenced-by handle
that `GetByCurrentId` cannot resolve, `makeInventory` fails; when moreover the canonical
identities of the working set are pairwise distinct, the error it returns is the error of
the lookup of such a handle. -/
theorem makeInventory_unresolved (c : Collaborators) (m : ResMap)
    (hbad : ∃ r ∈ m, ∃ refid ∈ r.GetRefBy, ∀ ref, m.GetByCurrentId refid ≠ .ok ref) :
    (∃ e, makeInventory c m = .error e) ∧
    ((m.map Resource.CurId).Nodup →
      ∃ r ∈ m, ∃ refid ∈ r.GetRefBy, ∃ e,
        m.GetByCurrentId refid = .error e ∧ makeInventory c m = .error e) := by
  refine ⟨makeInventory_not_ok_of_unresolved hbad, ?_⟩
  intro hnd
  have hbad' : ∃ r ∈ m.Resources, ∀ refs, computeRefs r m ≠ .ok refs := by
    obtain ⟨r, hr, refid, hrefid, hno⟩ := hbad
    refine ⟨r, hr, ?_⟩
    intro refs hc
    obtain ⟨ref, href⟩ := computeRefs_ok_resolves hc refid hrefid
    exact hno ref href
  obtain ⟨r, hr, e, hc, hl⟩ :=
    @makeInventoryLoop_unresolved c m m.Resources NewInventory [] hnd
      (fun r _ => NewInventory_get r.CurId) hbad'
  obtain ⟨refid, hrefid, he⟩ := computeRefsLoop_error hc
  exact ⟨r, hr, refid, hrefid, e, he, makeInventory_of_loop_error hl⟩

theorem makeInventory_unresolved_witness :
    (∃ r ∈ [resA, resBDangling], ∃ refid ∈ r.GetRefBy,
      ∀ ref, ResMap.GetByCurrentId [resA, resBDangling] refid ≠ .ok ref) ∧
    ([resA, resBDangling].map Resource.CurId).Nodup ∧
    makeInventory sampleCollaborators [resA, resBDangling] = .error (.noMatch idX) ∧
    ∃ r ∈ [resA, resBDangling], ∃ refid ∈ r.GetRefBy, ∃ e,
      ResMap.GetByCurrentId [resA, resBDangling] refid = .error e ∧
      makeInventory sampleCollaborators [resA, resBDangling] = .error e :=
  have hbad : ∃ r ∈ [resA, resBDangling], ∃ refid ∈ r.GetRefBy,
      ∀ ref, ResMap.GetByCurrentId [resA, resBDangling] refid ≠ .ok ref :=
    ⟨resBDangling, by decide, idX, by decide, fun ref h =>
      absurd ((by decide : ResMap.GetByCurrentId [resA, resBDangling] idX =
        .error (.noMatch idX)).symm.trans h) (by intro h0; cases h0)⟩
  ⟨hbad, by decide, by decide,
    (makeInventory_unresolved sampleCollaborators [resA, resBDangling] hbad).2 (by decide)⟩

/-- C4: when the configuration decodes, `Config` returns an error if and only if the
configured policy string is something other than `""`, `"ignore"` or `"collect"`, and the
error is then the `unrecognized garbagePolicy` error for that string. -/
theorem Config_error_iff (Unmarshal : Bytes → plugin → plugin × Option Error)
    (p : plugin) (h : PluginHelpers) (c : Bytes) (q : plugin)
    (hdec : Unmarshal c { p with h := h } = (q, none)) :
    ((p.Config Unmarshal h c).2 ≠ none ↔
      (q.Policy ≠ "" ∧ q.Policy ≠ "ignore" ∧ q.Policy ≠ "collect")) ∧
    ((q.Policy ≠ "" ∧ q.Policy ≠ "ignore" ∧ q.Policy ≠ "collect") →
      (p.Config Unmarshal h c).2 = some (.unrecognizedGarbagePolicy q.Policy)) := by
  unfold plugin.Config
  simp only [hdec, GarbageIgnoreString, GarbageCollectString]
  by_cases h0 : q.Policy = ""
  · simp [h0]
  · by_cases h1 : q.Policy = "ignore"
    · simp [h1]
    · by_cases h2 : q.Policy = "collect"
      · simp [h2]
      · simp [h0, h1, h2]

theorem Config_error_iff_witness :
    sampleUnmarshal bytesPrune { samplePlugin "" with h := sampleHelpers } =
      ({ samplePlugin "" with Policy := "prune" }, none) ∧
    ((samplePlugin "").Config sampleUnmarshal sampleHelpers bytesPrune).2 =
      some (.unrecognizedGarbagePolicy "prune") :=
  ⟨rfl,
    (Config_error_iff sampleUnmarshal (samplePlugin "") sampleHelpers bytesPrune
      { samplePlugin "" with Policy := "prune" } rfl).2 (by decide)⟩

/-- C5: an empty policy behaves as `"ignore"`: `Config` on a configuration that decodes to
the empty policy succeeds and leaves the plugin in the state `Config` leaves it in on the
configuration that differs only in carrying the policy `"ignore"`, so `Transform` gives
the same error and the same final working set in both cases. -/
theorem Config_empty_eq_ignore (Unmarshal : Bytes → plugin → plugin × Option Error)
    (c : Collaborators) (p : plugin) (h : PluginHelpers) (c₁ c₂ : Bytes) (q : plugin)
    (h₁ : Unmarshal c₁ { p with h := h } = ({ q with Policy := "" }, none))
    (h₂ : Unmarshal c₂ { p with h := h } = ({ q with Policy := "ignore" }, none)) :
    (p.Config Unmarshal h c₁).2 = none ∧
    p.Config Unmarshal h c₁ = p.Config Unmarshal h c₂ ∧
    ∀ m, (p.Config Unmarshal h c₁).1.Transform c m =
      (p.Config Unmarshal h c₂).1.Transform c m := by
  have e : p.Config Unmarshal h c₁ = p.Config Unmarshal h c₂ := by
    unfold plugin.Config
    simp [h₁, h₂, GarbageIgnoreString, GarbageCollectString]
  refine ⟨?_, e, fun m => by rw [e]⟩
  unfold plugin.Config
  simp [h₁, GarbageIgnoreString, GarbageCollectString]

theorem Config_empty_eq_ignore_witness :
    sampleUnmarshal [] { samplePlugin "x" with h := sampleHelpers } =
      ({ samplePlugin "x" with Policy := "" }, none) ∧
    sampleUnmarshal bytesIgnore { samplePlugin "x" with h := sampleHelpers } =
      ({ samplePlugin "x" with Policy := "ignore" }, none) ∧
    ((samplePlugin "x").Config sampleUnmarshal sampleHelpers []).2 = none ∧
    (samplePlugin "x").Config sampleUnmarshal sampleHelpers [] =
      (samplePlugin "x").Config sampleUnmarshal sampleHelpers bytesIgnore :=
  have hw := Config_empty_eq_ignore sampleUnmarshal sampleCollaborators (samplePlugin "x")
    sampleHelpers [] bytesIgnore (samplePlugin "x") rfl rfl
  ⟨rfl, rfl, hw.1, hw.2.1⟩

/-- C6: collect semantics. When `makeInventory` succeeds on the working set and the
artifact is constructed (the annotations are built and `MakeConfigMap` succeeds), then
with the policy `"collect"` `Transform` returns no error and leaves a working set that
holds exactly one resource, the new artifact. -/
theorem Transform_collect (c : Collaborators) (p : plugin) (m : ResMap) (inv : Inventory)
    (h : String) (annotations : Annotations) (cm : Resource)
    (hinv : makeInventory c m = .ok (inv, h))
    (hupd : c.UpdateAnnotations inv [(c.HashAnnotation, h)] = (annotations, none))
    (hcm : p.h.MakeConfigMap (p.args annotations) = .ok cm)
    (hpol : p.Policy = "collect") :
    p.Transform c m = ([cm], none) ∧ (p.Transform c m).1.length = 1 := by
  have ht := Transform_of_ok hinv hupd hcm
  have hp : p.Policy = GarbageCollectString := hpol
  rw [if_pos hp, purge_eq_nil] at ht
  rw [ht]
  exact ⟨rfl, rfl⟩

theorem Transform_collect_witness :
    makeInventory sampleCollaborators [resA, resB] = .ok (sampleInventory, sampleHash) ∧
    sampleCollaborators.UpdateAnnotations sampleInventory
      [(sampleCollaborators.HashAnnotation, sampleHash)] = (sampleAnnotations, none) ∧
    (samplePlugin "collect").h.MakeConfigMap ((samplePlugin "collect").args sampleAnnotations)
      = .ok sampleArtifact ∧
    (samplePlugin "collect").Transform sampleCollaborators [resA, resB] =
      ([sampleArtifact], none) :=
  ⟨by decide, by decide, by decide,
    (Transform_collect sampleCollaborators (samplePlugin "collect") [resA, resB]
      sampleInventory sampleHash sampleAnnotations sampleArtifact
      (by decide) (by decide) (by decide) rfl).1⟩

/-- C7: ignore semantics. When `makeInventory` succeeds on the working set and the
artifact is constructed, then with the policy `"ignore"` `Transform` returns no error and
leaves the original resources unchanged, in their order, followed by exactly one new
resource, the artifact: N + 1 resources in total. -/
theorem Transform_ignore (c : Collaborators) (p : plugin) (m : ResMap) (inv : Inventory)
    (h : String) (annotations : Annotations) (cm : Resource)
    (hinv : makeInventory c m = .ok (inv, h))
    (hupd : c.UpdateAnnotations inv [(c.HashAnnotation, h)] = (annotations, none))
    (hcm : p.h.MakeConfigMap (p.args annotations) = .ok cm)
    (hpol : p.Policy = "ignore") :
    p.Transform c m = (m ++ [cm], none) ∧ (p.Transform c m).1.length = m.length + 1 := by
  have ht := Transform_of_ok hinv hupd hcm
  have hp : ¬ p.Policy = GarbageCollectString := by
    rw [hpol]; decide
  rw [if_neg hp] at ht
  rw [ht]
  exact ⟨rfl, by simp⟩

theorem Transform_ignore_witness :
    makeInventory sampleCollaborators [resA, resB] = .ok (sampleInventory, sampleHash) ∧
    sampleCollaborators.UpdateAnnotations sampleInventory
      [(sampleCollaborators.HashAnnotation, sampleHash)] = (sampleAnnotations, none) ∧
    (samplePlugin "ignore").h.MakeConfigMap ((samplePlugin "ignore").args sampleAnnotations)
      = .ok sampleArtifact ∧
    (samplePlugin "ignore").Transform sampleCollaborators [resA, resB] =
      ([resA, resB, sampleArtifact], none) :=
  ⟨by decide, by decide, by decide,
    (Transform_ignore sampleCollaborators (samplePlugin "ignore") [resA, resB]
      sampleInventory sampleHash sampleAnnotations sampleArtifact
      (by decide) (by decide) (by decide) rfl).1⟩

/-- C8: no partial commit. For every working set and every policy, if `makeInventory`
fails, or it succeeds and the artifact construction `MakeConfigMap` fails, `Transform`
returns that error and the working set is exactly what it was before the call. -/
theorem Transform_no_partial_commit (c : Collaborators) (p : plugin) (m : ResMap)
    (e : Error)
    (hfail : makeInventory c m = .error e ∨
      ∃ inv h annotations, makeInventory c m = .ok (inv, h) ∧
        c.UpdateAnnotations inv [(c.HashAnnotation, h)] = (annotations, none) ∧
        p.h.MakeConfigMap (p.args annotations) = .error e) :
    p.Transform c m = (m, some e) := by
  rcases hfail with hinv | ⟨inv, h, annotations, hinv, hupd, hcm⟩
  · exact Transform_of_makeInventory_error hinv
  · unfold plugin.Transform
    simp only [hinv, hupd, hcm]

theorem Transform_no_partial_commit_witness :
    (namelessPlugin "collect").Transform sampleCollaborators [resA, resB] =
      ([resA, resB], some (.collaborator "name is required")) ∧
    (samplePlugin "collect").Transform sampleCollaborators [resA, resBDangling] =
      ([resA, resBDangling], some (.noMatch idX)) :=
  ⟨Transform_no_partial_commit sampleCollaborators (namelessPlugin "collect") [resA, resB]
      (.collaborator "name is required")
      (Or.inr ⟨sampleInventory, sampleHash, sampleAnnotations, by decide, by decide,
        by decide⟩),
    Transform_no_partial_commit sampleCollaborators (samplePlugin "collect")
      [resA, resBDangling] (.noMatch idX) (Or.inl (by decide))⟩

/-- C9: whenever `Transform` succeeds, the working set it leaves ends with the artifact it
appended, and that artifact carries under the key `inventory.HashAnnotation` exactly the
digest `makeInventory` computed over the working set as it was on entry (so the digest
does not cover the artifact, and `UpdateAnnotations` has not overwritten it). The
collaborators are those of the spec, for every canonical string, digest, serialization,
factory failure and plugin. -/
theorem Transform_hash_annotation (ResIdString : ResId → String)
    (ComputeHash : List String → Except Error String)
    (Marshal : Inventory → Except Error String)
    (Rejects : ConfigMapArgs → Option Error) (p : plugin) (m m' : ResMap)
    (hT : ({ p with h := PluginHelpers.ofSpec Rejects } : plugin).Transform
      (Collaborators.ofSpec ResIdString ComputeHash Marshal) m = (m', none)) :
    ∃ inv h cm,
      makeInventory (Collaborators.ofSpec ResIdString ComputeHash Marshal) m = .ok (inv, h) ∧
      m' = (if p.Policy = GarbageCollectString then [] else m) ++ [cm] ∧
      cm.GetAnnotations.lookup inventory.HashAnnotation = some h :=
  Transform_hash_of_contracts (Collaborators.ofSpec ResIdString ComputeHash Marshal)
    { p with h := PluginHelpers.ofSpec Rejects } m m'
    (ofSpec_keepsHashEntry ResIdString ComputeHash Marshal) (ofSpec_carriesAll Rejects) hT

theorem Transform_hash_annotation_witness :
    (specPlugin "ignore").Transform specCollaborators [resA, resB] =
      ([resA, resB, specArtifact], none) ∧
    makeInventory specCollaborators [resA, resB] = .ok (sampleInventory, sampleHash) ∧
    specArtifact.GetAnnotations.lookup inventory.HashAnnotation = some sampleHash ∧
    ∃ inv h cm, makeInventory specCollaborators [resA, resB] = .ok (inv, h) ∧
      [resA, resB, specArtifact] =
        (if (specPlugin "ignore").Policy = GarbageCollectString then [] else [resA, resB])
          ++ [cm] ∧
      cm.GetAnnotations.lookup inventory.HashAnnotation = some h :=
  ⟨by decide, by decide, by decide,
    Transform_hash_annotation sampleCollaborators.ResIdString
      sampleCollaborators.ComputeHash sampleMarshal sampleRejects (specPlugin "ignore")
      [resA, resB] [resA, resB, specArtifact] (by decide)⟩

/-- C10: on a working set on which `makeInventory` succeeds, the inventory value stored
under the canonical id of a resource is the sequence of the canonical ids of the
resources its referenced-by handles resolve to, one entry per handle, in the order of the
handles. -/
theorem makeInventory_value (c : Collaborators) (m : ResMap) (inv : Inventory)
    (h : String) (r : Resource) (hok : makeInventory c m = .ok (inv, h)) (hr : r ∈ m) :
    ∃ resolved : List Resource,
      List.Forall₂ (fun refid ref => m.GetByCurrentId refid = .ok ref) r.GetRefBy resolved ∧
      inv.get r.CurId = some (resolved.map Resource.CurId) := by
  obtain ⟨refs, hc, hget⟩ := (makeInventory_ok hok).2.2.1 r hr
  obtain ⟨resolved, hf, hrefs⟩ := (computeRefsLoop_ok_iff m r.GetRefBy [] refs).mp hc
  exact ⟨resolved, hf, by simpa [hrefs] using hget⟩

theorem makeInventory_value_witness :
    makeInventory sampleCollaborators [resA, resB] = .ok (sampleInventory, sampleHash) ∧
    sampleInventory.get idA = some [idB] ∧
    sampleInventory.get idB = some [] ∧
    sampleInventory.keys = [idA, idB] ∧
    ∃ resolved : List Resource,
      List.Forall₂ (fun refid ref => ResMap.GetByCurrentId [resA, resB] refid = .ok ref)
        resA.GetRefBy resolved ∧
      sampleInventory.get resA.CurId = some (resolved.map Resource.CurId) :=
  ⟨by decide, by decide, by decide, by decide,
    makeInventory_value sampleCollaborators [resA, resB] sampleInventory sampleHash resA
      (by decide) (by decide)⟩

/-- C11: with the policy `"collect"`, once `makeInventory` and the artifact construction
have succeeded, `Transform` returns no error (the purge and the final `Append` do not
fail); and a `Transform` that does return an error has not purged: the working set is
what it was. -/
theorem Transform_purge_cannot_fail (c : Collaborators) (p : plugin) (m : ResMap)
    (hpol : p.Policy = "collect") :
    (∀ inv h annotations cm,
      makeInventory c m = .ok (inv, h) →
      c.UpdateAnnotations inv [(c.HashAnnotation, h)] = (annotations, none) →
      p.h.MakeConfigMap (p.args annotations) = .ok cm →
      (p.Transform c m).2 = none ∧ (p.Transform c m).1 = [cm]) ∧
    (∀ e, (p.Transform c m).2 = some e → (p.Transform c m).1 = m) := by
  refine ⟨?_, fun e he => Transform_error_unchanged he⟩
  intro inv h annotations cm hinv hupd hcm
  have ht := Transform_of_ok hinv hupd hcm
  have hp : p.Policy = GarbageCollectString := hpol
  rw [if_pos hp, purge_eq_nil] at ht
  rw [ht]
  exact ⟨rfl, rfl⟩

theorem Transform_purge_cannot_fail_witness :
    (samplePlugin "collect").Policy = "collect" ∧
    makeInventory sampleCollaborators [resA, resB] = .ok (sampleInventory, sampleHash) ∧
    ((samplePlugin "collect").Transform sampleCollaborators [resA, resB]).2 = none ∧
    ((samplePlugin "collect").Transform sampleCollaborators [resA, resB]).1 =
      [sampleArtifact] :=
  ⟨rfl, by decide,
    (Transform_purge_cannot_fail sampleCollaborators (samplePlugin "collect") [resA, resB]
      rfl).1 sampleInventory sampleHash sampleAnnotations sampleArtifact
      (by decide) (by decide) (by decide)⟩

/-- C12: `makeInventory` fails at the first offending resource and checks identity before
references. If the resource `r` at some position has the canonical id of a resource
enumerated before it, and the resources before it have pairwise distinct ids and only
resolvable handles, then the loop reaches `r` with an inventory that holds, under that
id, the references of the earlier resource, stops there with the duplicate error naming
the id (whatever the handles of `r` are), and `makeInventory` returns that error. -/
theorem makeInventory_first_duplicate (c : Collaborators) (pre post : List Resource)
    (r : Resource) (hnd : (pre.map Resource.CurId).Nodup)
    (hres : ∀ r' ∈ pre, ∀ refid ∈ r'.GetRefBy,
      ∃ ref, ResMap.GetByCurrentId (pre ++ r :: post) refid = .ok ref)
    (hdup : r.CurId ∈ pre.map Resource.CurId) :
    makeInventory c (pre ++ r :: post) = .error (.alreadyInInventory r.CurId) ∧
    ∃ inv keys,
      makeInventoryLoop c (pre ++ r :: post) pre NewInventory [] = .ok (inv, keys) ∧
      (∃ r₀ ∈ pre, r₀.CurId = r.CurId ∧ ∃ refs,
        computeRefs r₀ (pre ++ r :: post) = .ok refs ∧ inv.get r.CurId = some refs) ∧
      makeInventoryLoop c (pre ++ r :: post) (r :: post) inv keys =
        .error (.alreadyInInventory r.CurId) := by
  obtain ⟨inv, hpre⟩ :=
    @makeInventoryLoop_ok_of c (pre ++ r :: post) pre NewInventory [] hnd
      (fun r' _ => NewInventory_get r'.CurId)
      (fun r' hr' => computeRefs_ok_of_resolves (hres r' hr'))
  obtain ⟨-, -, -, -, hval, -⟩ := makeInventoryLoop_ok hpre
  obtain ⟨r₀, hr₀, hid⟩ := List.mem_map.mp hdup
  obtain ⟨refs, hc, hget⟩ := hval r₀ hr₀
  rw [hid] at hget
  have hpresent : inv.get r.CurId ≠ none := by rw [hget]; simp
  have hstep := makeInventoryLoop_cons_present c (pre ++ r :: post) r post inv
    ([] ++ pre.map (fun r => c.ResIdString r.CurId)) hpresent
  refine ⟨?_, inv, _, hpre, ⟨r₀, hr₀, hid, refs, hc, hget⟩, hstep⟩
  apply makeInventory_of_loop_error
  show makeInventoryLoop c (pre ++ r :: post) (pre ++ r :: post) NewInventory [] = _
  rw [makeInventoryLoop_append, hpre]
  exact hstep

theorem makeInventory_first_duplicate_witness :
    ([resA2].map Resource.CurId).Nodup ∧
    resADangling.CurId ∈ [resA2].map Resource.CurId ∧
    idX ∈ resADangling.GetRefBy ∧
    ResMap.GetByCurrentId ([resA2] ++ resADangling :: [resB]) idX = .error (.noMatch idX) ∧
    makeInventory sampleCollaborators ([resA2] ++ resADangling :: [resB]) =
      .error (.alreadyInInventory idA) :=
  ⟨by decide, by decide, by decide, by decide,
    (makeInventory_first_duplicate sampleCollaborators [resA2] [resB] resADangling
      (by decide)
      (fun r' hr' refid hrefid =>
        (GetByCurrentId_isOk_iff ([resA2] ++ resADangling :: [resB]) refid).mpr
          ((by decide : ∀ r' ∈ [resA2], ∀ refid ∈ r'.GetRefBy,
              ∃ r'' ∈ [resA2] ++ resADangling :: [resB], r''.CurId = refid)
            r' hr' refid hrefid))
      (by decide)).1⟩

/-- C13: on a working set of N resources on which `makeInventory` succeeds every resource
is enumerated exactly once: the keys of the inventory are the canonical ids of the N
resources (N keys, no key twice), and the list handed to the hasher has N strings, the
i-th being the canonical string of the id of the i-th enumerated resource. -/
theorem makeInventory_enumerates_once (c : Collaborators) (m : ResMap) (inv : Inventory)
    (h : String) (hok : makeInventory c m = .ok (inv, h)) :
    inv.keys = m.Resources.map Resource.CurId ∧
    inv.keys.Nodup ∧
    inv.keys.length = m.Resources.length ∧
    ∃ keys, makeInventoryLoop c m m.Resources NewInventory [] = .ok (inv, keys) ∧
      SortArrayAndComputeHash c keys = .ok h ∧
      keys = m.Resources.map (fun r => c.ResIdString r.CurId) ∧
      keys.length = m.Resources.length := by
  obtain ⟨keys, hl, hs⟩ := makeInventory_ok_loop hok
  obtain ⟨hnd, -, hkeys, hinvkeys, -, -⟩ := makeInventoryLoop_ok hl
  have hk : inv.keys = m.Resources.map Resource.CurId := by
    simpa [Inventory.keys, NewInventory] using hinvkeys
  have hk' : keys = m.Resources.map (fun r => c.ResIdString r.CurId) := by
    simpa using hkeys
  refine ⟨hk, ?_, ?_, keys, hl, hs, hk', ?_⟩
  · rw [hk]; exact hnd
  · rw [hk, List.length_map]
  · rw [hk', List.length_map]

theorem makeInventory_enumerates_once_witness :
    makeInventory sampleCollaborators [resA, resB] = .ok (sampleInventory, sampleHash) ∧
    sampleInventory.keys = [idA, idB] ∧
    makeInventoryLoop sampleCollaborators [resA, resB] [resA, resB] NewInventory [] =
      .ok (sampleInventory, ["ns_a_apps_Deployment", "ns_b_apps_Deployment"]) ∧
    sampleInventory.keys.length = (ResMap.Resources [resA, resB]).length :=
  ⟨by decide, by decide, by decide,
    (makeInventory_enumerates_once sampleCollaborators [resA, resB] sampleInventory
      sampleHash (by decide)).2.2.1⟩

/-- C14: cycle tolerance. The function `makeInventory` is total, so on every finite
working set it returns either a result or an error; and, given that the hasher succeeds on
the canonical strings of the working set, it succeeds if and only if the canonical ids are
pairwise distinct and every referenced-by handle resolves, whatever the shape of the
reference graph. -/
theorem makeInventory_ok_iff (c : Collaborators) (m : ResMap)
    (hh : ∃ h, SortArrayAndComputeHash c (m.map (fun r => c.ResIdString r.CurId)) = .ok h) :
    ((∃ inv h, makeInventory c m = .ok (inv, h)) ∨ (∃ e, makeInventory c m = .error e)) ∧
    ((∃ inv h, makeInventory c m = .ok (inv, h)) ↔
      ((m.map Resource.CurId).Nodup ∧
        ∀ r ∈ m, ∀ refid ∈ r.GetRefBy, ∃ ref, m.GetByCurrentId refid = .ok ref)) := by
  refine ⟨?_, ?_, ?_⟩
  · cases hm : makeInventory c m with
    | error e => exact Or.inr ⟨e, rfl⟩
    | ok res => exact Or.inl ⟨res.1, res.2, rfl⟩
  · rintro ⟨inv, h, hok⟩
    obtain ⟨hnd, -, hval, -⟩ := makeInventory_ok hok
    refine ⟨hnd, ?_⟩
    intro r hr refid hrefid
    obtain ⟨refs, hc, -⟩ := hval r hr
    exact computeRefs_ok_resolves hc refid hrefid
  · rintro ⟨hnd, hres⟩
    obtain ⟨h, hs⟩ := hh
    obtain ⟨inv, hok⟩ := makeInventory_ok_of hnd hres hs
    exact ⟨inv, h, hok⟩

theorem makeInventory_ok_iff_witness :
    (∃ h, SortArrayAndComputeHash sampleCollaborators
      ([resA, resBCyclic].map (fun r => sampleCollaborators.ResIdString r.CurId)) = .ok h) ∧
    idB ∈ resA.GetRefBy ∧ idA ∈ resBCyclic.GetRefBy ∧
    makeInventory sampleCollaborators [resA, resBCyclic] = .ok (cyclicInventory, sampleHash) ∧
    cyclicInventory.get idA = some [idB] ∧
    cyclicInventory.get idB = some [idA] ∧
    ∃ inv h, makeInventory sampleCollaborators [resA, resBCyclic] = .ok (inv, h) :=
  ⟨⟨sampleHash, by decide⟩, by decide, by decide, by decide, by decide, by decide,
    (makeInventory_ok_iff sampleCollaborators [resA, resBCyclic]
      ⟨sampleHash, by decide⟩).2.mpr
      ⟨by decide, fun r hr refid hrefid =>
        (GetByCurrentId_isOk_iff [resA, resBCyclic] refid).mpr
          ((by decide : ∀ r ∈ [resA, resBCyclic], ∀ refid ∈ r.GetRefBy,
              ∃ r' ∈ [resA, resBCyclic], r'.CurId = refid) r hr refid hrefid)⟩⟩

/-- C15: the digest is derived from the canonical ids alone: two working sets on which
`makeInventory` succeeds and whose resources have the same canonical ids get the same
hash, whatever their reference lists and their other content. -/
theorem makeInventory_hash_of_ids (c : Collaborators) (m₁ m₂ : ResMap)
    (inv₁ inv₂ : Inventory) (h₁ h₂ : String)
    (hok₁ : makeInventory c m₁ = .ok (inv₁, h₁))
    (hok₂ : makeInventory c m₂ = .ok (inv₂, h₂))
    (hids : ∀ id, id ∈ m₁.map Resource.CurId ↔ id ∈ m₂.map Resource.CurId) :
    h₁ = h₂ := by
  obtain ⟨hnd₁, -, -, hs₁⟩ := makeInventory_ok hok₁
  obtain ⟨hnd₂, -, -, hs₂⟩ := makeInventory_ok hok₂
  have hperm : (m₁.map Resource.CurId).Perm (m₂.map Resource.CurId) :=
    (List.perm_ext_iff_of_nodup hnd₁ hnd₂).mpr hids
  have hperm' : (m₁.map (fun r => c.ResIdString r.CurId)).Perm
      (m₂.map (fun r => c.ResIdString r.CurId)) := by
    have := hperm.map c.ResIdString
    simpa [List.map_map, Function.comp_def] using this
  rw [SortArrayAndComputeHash_perm c hperm', hs₂] at hs₁
  exact (Except.ok.inj hs₁).symm

theorem makeInventory_hash_of_ids_witness :
    makeInventory sampleCollaborators [resA, resB] = .ok (sampleInventory, sampleHash) ∧
    makeInventory sampleCollaborators [resBCyclic, resA] =
      .ok ({ Current := [(idB, [idA]), (idA, [idB])] }, sampleHash) ∧
    (∀ id, id ∈ [resA, resB].map Resource.CurId ↔
      id ∈ [resBCyclic, resA].map Resource.CurId) ∧
    resB.GetRefBy ≠ resBCyclic.GetRefBy ∧ resB.Body ≠ resBCyclic.Body ∧
    sampleHash = sampleHash :=
  have hids : ∀ id, id ∈ [resA, resB].map Resource.CurId ↔
      id ∈ [resBCyclic, resA].map Resource.CurId :=
    fun _ => (by decide : List.Perm ([resA, resB].map Resource.CurId)
      ([resBCyclic, resA].map Resource.CurId)).mem_iff
  ⟨by decide, by decide, hids, by decide, by decide,
    makeInventory_hash_of_ids sampleCollaborators [resA, resB] [resBCyclic, resA]
      sampleInventory { Current := [(idB, [idA]), (idA, [idB])] } sampleHash sampleHash
      (by decide) (by decide) hids⟩

/-- C16: whenever `Config` returns no error, the `Policy` it leaves in the plugin is one of
the two canonical policy strings and is not empty, it is the collect string exactly when
the configured policy was; consequently a `Transform` of that plugin that gets as far as
the artifact purges the working set exactly when the configured policy was the collect
one. -/
theorem Config_ok_policy (Unmarshal : Bytes → plugin → plugin × Option Error)
    (p : plugin) (h : PluginHelpers) (c : Bytes) (p' : plugin)
    (hcfg : p.Config Unmarshal h c = (p', none)) :
    (p'.Policy = GarbageIgnoreString ∨ p'.Policy = GarbageCollectString) ∧
    p'.Policy ≠ "" ∧
    (p'.Policy = GarbageCollectString ↔
      (Unmarshal c { p with h := h }).1.Policy = GarbageCollectString) ∧
    ∀ (k : Collaborators) (m : ResMap) (inv : Inventory) (hash : String)
      (annotations : Annotations) (cm : Resource),
      makeInventory k m = .ok (inv, hash) →
      k.UpdateAnnotations inv [(k.HashAnnotation, hash)] = (annotations, none) →
      p'.h.MakeConfigMap (p'.args annotations) = .ok cm →
      p'.Transform k m =
        (if (Unmarshal c { p with h := h }).1.Policy = GarbageCollectString
          then [cm] else m ++ [cm], none) := by
  have key : (p'.Policy = GarbageIgnoreString ∨ p'.Policy = GarbageCollectString) ∧
      (p'.Policy = GarbageCollectString ↔
        (Unmarshal c { p with h := h }).1.Policy = GarbageCollectString) := by
    unfold plugin.Config at hcfg
    cases hu : Unmarshal c { p with h := h } with
    | mk q err =>
      cases err with
      | some e => simp [hu] at hcfg
      | none =>
        simp only [hu] at hcfg
        by_cases h0 : q.Policy = ""
        · simp only [h0, if_true, GarbageIgnoreString, GarbageCollectString] at hcfg
          simp only [show ¬ ("ignore" ≠ "collect" ∧ "ignore" ≠ "ignore") by decide,
            if_false, Prod.mk.injEq, and_true] at hcfg
          subst hcfg
          simp only [h0, GarbageIgnoreString, GarbageCollectString]
          decide
        · simp only [h0, if_false] at hcfg
          by_cases hbad : q.Policy ≠ GarbageCollectString ∧ q.Policy ≠ GarbageIgnoreString
          · simp [hbad] at hcfg
          · simp only [hbad, if_false, Prod.mk.injEq, and_true] at hcfg
            subst hcfg
            refine ⟨?_, Iff.rfl⟩
            by_cases hc : q.Policy = GarbageCollectString
            · exact Or.inr hc
            · left
              by_contra hi
              exact hbad ⟨hc, hi⟩
  refine ⟨key.1, ?_, key.2, ?_⟩
  · rcases key.1 with hk | hk
    · rw [hk]; decide
    · rw [hk]; decide
  · intro k m inv hash annotations cm hinv hupd hcm
    rw [Transform_of_ok hinv hupd hcm]
    by_cases hc : p'.Policy = GarbageCollectString
    · simp [hc, key.2.mp hc, purge_eq_nil]
    · have hq : ¬ (Unmarshal c { p with h := h }).1.Policy = GarbageCollectString :=
        fun hq => hc (key.2.mpr hq)
      simp [hc, hq]

theorem Config_ok_policy_witness :
    (samplePlugin "x").Config sampleUnmarshal sampleHelpers bytesCollect =
      ({ samplePlugin "x" with Policy := "collect" }, none) ∧
    ({ samplePlugin "x" with Policy := "collect" } : plugin).Policy ≠ "" ∧
    ({ samplePlugin "x" with Policy := "collect" } : plugin).Transform sampleCollaborators
      [resA, resB] = ([sampleArtifact], none) :=
  have hw := Config_ok_policy sampleUnmarshal (samplePlugin "x") sampleHelpers bytesCollect
    { samplePlugin "x" with Policy := "collect" } rfl
  ⟨rfl, hw.2.1,
    hw.2.2.2 sampleCollaborators [resA, resB] sampleInventory sampleHash sampleAnnotations
      sampleArtifact (by decide) (by decide) (by decide)⟩

end InventoryTransformer
